import Mathlib

/-!
Shallow embedding of `src/main.py` (a small CLI demo script) and proofs of
the specification claims about it.

The repository's own logic consists of four pieces:
* `fib` — first `n` Fibonacci numbers (a bounded `for` loop);
* `is_prime` — trial division by odd numbers (a `while d * d <= n` loop,
  embedded below with explicit fuel that is proved sufficient);
* `random_payload` — a seeded pseudo-random payload with a truncated
  SHA-256 checksum over the canonical JSON serialization;
* `main` — the entry point, which composes the above and returns 0.

Machine integers are modelled as `Nat`/`Int` (Python integers are unbounded,
so no wrap-around is needed); Python floats produced by
`round(rng.random(), 6)` are modelled as exact rationals.
-/

/-! ## Sequence Analyzer: `fib` (src/main.py lines 25-32) -/

/-- The loop body of `fib`: `for _ in range(k): seq.append(a); a, b = b, a + b`.
The counter `k` is the number of remaining iterations. -/
def fibLoop : Nat → Int → Int → List Int
  | 0, _, _ => []
  | k + 1, a, b => a :: fibLoop k b (a + b)

/-- `fib(n)` from src/main.py: returns the first `max(0, n)` Fibonacci
numbers starting `0, 1, 1, 2, 3, ...`. -/
def fib (n : Int) : List Int :=
  fibLoop (max 0 n).toNat 0 1

/-! ## Sequence Analyzer: `is_prime` (src/main.py lines 35-46)

The `while d * d <= n` loop is embedded as a recursion on explicit fuel;
`loops_terminate` below proves that the fuel used by `is_prime` is
sufficient (the `none` branch is never taken). -/

/-- One fuel-counted unfolding of the loop
`while d * d <= n: if n % d == 0: return False; d += 2` (returning `True`
once the guard fails).  `none` means the fuel ran out before the guard
failed. -/
def trialDivFuel (n : Nat) : Nat → Nat → Option Bool
  | 0, d => if d * d ≤ n then none else some true
  | f + 1, d =>
    if d * d ≤ n then
      (if n % d = 0 then some false else trialDivFuel n f (d + 2))
    else some true

/-- `is_prime` with explicit fuel for the trial-division loop. -/
def isPrimeFuel (fuel : Nat) (n : Int) : Option Bool :=
  if n < 2 then some false
  else if n % 2 = 0 then some (decide (n = 2))
  else trialDivFuel n.toNat fuel 3

/-- `is_prime(n)` from src/main.py.  Fuel `n.toNat + 1` is proved sufficient
in `loops_terminate`; the `getD false` default is unreachable. -/
def is_prime (n : Int) : Bool :=
  (isPrimeFuel (n.toNat + 1) n).getD false

/-! ## The `seq` / `ssum` / `primes` computations of `main`
(src/main.py lines 92-94) -/

/-- `primes = [n for n in seq if is_prime(n)]` applied to `fib count`. -/
def fibPrimes (count : Int) : List Int :=
  (fib count).filter (fun k => is_prime k)

/-! ## SHA-256 (the `hashlib.sha256(...).hexdigest()` call on line 61)

A faithful implementation of FIPS 180-4 SHA-256 over a list of bytes,
with 32-bit words represented as `Nat` reduced modulo `2 ^ 32`. -/

/-- Reduce modulo `2 ^ 32`. -/
def w32 (x : Nat) : Nat := x % 4294967296

/-- 32-bit right rotation. -/
def rotr (x k : Nat) : Nat := w32 ((x >>> k) ||| (x <<< (32 - k)))

def bsig0 (x : Nat) : Nat := rotr x 2 ^^^ rotr x 13 ^^^ rotr x 22

def bsig1 (x : Nat) : Nat := rotr x 6 ^^^ rotr x 11 ^^^ rotr x 25

def ssig0 (x : Nat) : Nat := rotr x 7 ^^^ rotr x 18 ^^^ (x >>> 3)

def ssig1 (x : Nat) : Nat := rotr x 17 ^^^ rotr x 19 ^^^ (x >>> 10)

def chFn (e f g : Nat) : Nat := (e &&& f) ^^^ ((e ^^^ 4294967295) &&& g)

def majFn (a b c : Nat) : Nat := (a &&& b) ^^^ (a &&& c) ^^^ (b &&& c)

/-- The eight 32-bit working variables / hash state. -/
structure Hash8 where
  a : Nat
  b : Nat
  c : Nat
  d : Nat
  e : Nat
  f : Nat
  g : Nat
  h : Nat

/-- Initial hash value (square roots of the first eight primes). -/
def initHash : Hash8 :=
  ⟨1779033703, 3144134277, 1013904242, 2773480762,
   1359893119, 2600822924, 528734635, 1541459225⟩

/-- Round constants (cube roots of the first 64 primes). -/
def roundK : List Nat :=
  [1116352408, 1899447441, 3049323471, 3921009573, 961987163, 1508970993,
   2453635748, 2870763221, 3624381080, 310598401, 607225278, 1426881987,
   1925078388, 2162078206, 2614888103, 3248222580, 3835390401, 4022224774,
   264347078, 604807628, 770255983, 1249150122, 1555081692, 1996064986,
   2554220882, 2821834349, 2952996808, 3210313671, 3336571891, 3584528711,
   113926993, 338241895, 666307205, 773529912, 1294757372, 1396182291,
   1695183700, 1986661051, 2177026350, 2456956037, 2730485921, 2820302411,
   3259730800, 3345764771, 3516065817, 3600352804, 4094571909, 275423344,
   430227734, 506948616, 659060556, 883997877, 958139571, 1322822218,
   1537002063, 1747873779, 1955562222, 2024104815, 2227730452, 2361852424,
   2428436474, 2756734187, 3204031479, 3329325298]

/-- Big-endian bytes (most significant first) of `x`, `k` bytes wide. -/
def natToBytesBE : Nat → Nat → List Nat
  | 0, _ => []
  | k + 1, x => natToBytesBE k (x / 256) ++ [x % 256]

/-- Group a byte list into big-endian 32-bit words (dropping a ragged tail;
the input is always a multiple of 4 bytes here). -/
def bytesToWords : List Nat → List Nat
  | b0 :: b1 :: b2 :: b3 :: rest =>
    (b0 * 16777216 + b1 * 65536 + b2 * 256 + b3) :: bytesToWords rest
  | _ => []

/-- SHA-256 padding: append `0x80`, zeros to 56 mod 64, then the bit length
as an 8-byte big-endian integer. -/
def padMessage (msg : List Nat) : List Nat :=
  let L := msg.length
  let k := (119 - (L % 64)) % 64
  msg ++ [128] ++ List.replicate k 0 ++ natToBytesBE 8 (8 * L)

/-- One step of the message-schedule extension, keeping the schedule in
reverse order (most recent word first). -/
def extendStep (rws : List Nat) : List Nat :=
  w32 (ssig1 (rws.getD 1 0) + rws.getD 6 0 + ssig0 (rws.getD 14 0) + rws.getD 15 0) :: rws

def extendIter : Nat → List Nat → List Nat
  | 0, rws => rws
  | k + 1, rws => extendIter k (extendStep rws)

/-- The 64-word message schedule of a 16-word block. -/
def messageSchedule (ws : List Nat) : List Nat :=
  (extendIter 48 ws.reverse).reverse

/-- One compression round, consuming a `(word, constant)` pair. -/
def shaRound (st : Hash8) (wk : Nat × Nat) : Hash8 :=
  let t1 := w32 (st.h + bsig1 st.e + chFn st.e st.f st.g + wk.2 + wk.1)
  let t2 := w32 (bsig0 st.a + majFn st.a st.b st.c)
  ⟨w32 (t1 + t2), st.a, st.b, st.c, w32 (st.d + t1), st.e, st.f, st.g⟩

/-- Compress one 64-byte block into the hash state. -/
def shaCompress (H : Hash8) (block : List Nat) : Hash8 :=
  let W := messageSchedule (bytesToWords block)
  let st := (W.zip roundK).foldl shaRound H
  ⟨w32 (H.a + st.a), w32 (H.b + st.b), w32 (H.c + st.c), w32 (H.d + st.d),
   w32 (H.e + st.e), w32 (H.f + st.f), w32 (H.g + st.g), w32 (H.h + st.h)⟩

/-- Fold over `k` consecutive 64-byte blocks. -/
def processBlocks : Nat → List Nat → Hash8 → Hash8
  | 0, _, H => H
  | k + 1, bytes, H => processBlocks k (bytes.drop 64) (shaCompress H (bytes.take 64))

/-- SHA-256 of a byte list, as the final eight-word hash state. -/
def sha256 (msg : List Nat) : Hash8 :=
  let padded := padMessage msg
  processBlocks (padded.length / 64) padded initHash

/-- The sixteen lowercase hexadecimal digit characters. -/
def hexChars : List Char :=
  "0123456789abcdef".data

/-- The hex digit of a nibble. -/
def nib (x : Nat) : Char := hexChars.getD x '0'

/-- Eight hex characters of a 32-bit word, most significant first. -/
def wordHex (w : Nat) : List Char :=
  [nib (w / 268435456 % 16), nib (w / 16777216 % 16), nib (w / 1048576 % 16),
   nib (w / 65536 % 16), nib (w / 4096 % 16), nib (w / 256 % 16),
   nib (w / 16 % 16), nib (w % 16)]

/-- The 64 characters of `hexdigest()`. -/
def hashHex (H : Hash8) : List Char :=
  wordHex H.a ++ wordHex H.b ++ wordHex H.c ++ wordHex H.d ++
  wordHex H.e ++ wordHex H.f ++ wordHex H.g ++ wordHex H.h

/-- `hashlib.sha256(bytes).hexdigest()` as a character list. -/
def sha256hexChars (msg : List Nat) : List Char :=
  hashHex (sha256 msg)

/-- UTF-8 bytes of a string; all strings hashed by this program are ASCII,
for which UTF-8 is the identity on code points. -/
def strBytes (s : String) : List Nat :=
  s.data.map Char.toNat

/-! ## Deterministic Payload Generator (src/main.py lines 49-62)

`random.Random` is CPython standard-library code (MT19937), not part of this
repository, and its `_randbelow` rejection loop has no a-priori bound, so it
is modelled here, faithful to the spec's contract for it: a fresh generator
whose stream is fully determined by the seed (an arbitrary 64-bit state for
the unseeded case), with `randint(a, b)` uniform in `[a, b]`, `random()`
returning `k / 2 ^ 53` with `k < 2 ^ 53` (the shape of CPython's `random()`),
and `choice` indexing the list.  The stand-in transition is a 64-bit linear
congruential step; each draw advances the state once, so the order of draws
determines the output exactly as the spec requires. -/

/-- Modelled from the spec: one state transition of the pseudo-random
generator (stand-in for the MT19937 step, which is external library code). -/
def rngNext (s : Nat) : Nat :=
  (6364136223846793005 * s + 1442695040888963407) % 18446744073709551616

/-- `rng.randint(lo, hi)`: a value in `[lo, hi]` and the advanced state. -/
def randintDraw (s : Nat) (lo hi : Int) : Int × Nat :=
  let t := rngNext s
  (lo + ((t % (hi - lo + 1).toNat : Nat) : Int), t)

/-- `rng.random()`: a rational `k / 2 ^ 53` in `[0, 1)` and the advanced
state. -/
def randomDraw (s : Nat) : ℚ × Nat :=
  let t := rngNext s
  (((t % 9007199254740992 : Nat) : ℚ) / 9007199254740992, t)

/-- `rng.choice(l)`: an element of `l` and the advanced state. -/
def choiceDraw (s : Nat) (l : List String) : String × Nat :=
  let t := rngNext s
  (l.getD (t % l.length) "", t)

/-- The category list of line 58. -/
def choices : List String := ["apple", "banana", "cherry", "durian"]

/-- Round-half-to-even to the nearest integer (the rounding used by
Python's builtin `round`). -/
def roundHalfEven (x : ℚ) : Int :=
  if x - ⌊x⌋ < 1 / 2 then ⌊x⌋
  else if 1 / 2 < x - ⌊x⌋ then ⌊x⌋ + 1
  else if ⌊x⌋ % 2 = 0 then ⌊x⌋ else ⌊x⌋ + 1

/-- `round(x, 6)`: round-half-to-even to six fractional decimal digits. -/
def round6 (x : ℚ) : ℚ :=
  (roundHalfEven (x * 1000000) : ℚ) / 1000000

/-- Strip trailing `'0'` characters. -/
def stripTrailingZeros (l : List Char) : List Char :=
  (l.reverse.dropWhile (fun c => c = '0')).reverse

/-- The six decimal digits of `k < 10 ^ 6`, zero-padded on the left. -/
def frac6 (k : Nat) : List Char :=
  (toString (1000000 + k)).data.drop 1

/-- Python's `repr` (as used by `json.dumps`) of the float `round(x, 6)`,
for `x` an exact multiple of `10 ^ -6` in `[0, 1]`: positional notation with
trailing zeros stripped, switching to scientific notation below `10 ^ -4`
exactly as CPython's shortest-round-trip `repr` does. -/
def floatRepr (q : ℚ) : String :=
  let k := (⌊q * 1000000⌋).toNat
  if k = 0 then "0.0"
  else if k < 10 then String.mk ((toString k).data ++ "e-06".data)
  else if k < 100 then
    if k % 10 = 0 then String.mk ((toString (k / 10)).data ++ "e-05".data)
    else String.mk ((toString (k / 10)).data ++ '.' :: (toString (k % 10)).data ++ "e-05".data)
  else if k % 1000000 = 0 then toString (k / 1000000) ++ ".0"
  else toString (k / 1000000) ++ "." ++ String.mk (stripTrailingZeros (frac6 (k % 1000000)))

/-- `json.dumps(data, sort_keys=True)` for the three-field payload dict:
keys sorted lexicographically (`choice < float < int`), default
separators. -/
def jsonCanonical (i : Int) (f : ℚ) (c : String) : String :=
  "\x7b\"choice\": \"" ++ c ++ "\", \"float\": " ++ floatRepr f ++
    ", \"int\": " ++ toString i ++ "\x7d"

/-- The payload record of `random_payload`: the three drawn fields plus the
checksum stored under the `"sha256"` key. -/
structure Payload where
  int : Int
  float : ℚ
  choice : String
  sha256 : String

/-- From the spec's checksum clause: serialize `{intValue, floatValue,
choiceValue}` canonically (keys sorted lexicographically), encode as UTF-8,
compute SHA-256, and keep the first 16 hex characters. -/
def canonicalChecksum (i : Int) (f : ℚ) (c : String) : String :=
  String.mk ((sha256hexChars (strBytes (jsonCanonical i f c))).take 16)

/-- The body of `random_payload`, starting from a concrete generator state
`s0` (the state `random.Random(seed)` would be in after seeding — or an
arbitrary entropy-derived state in the unseeded case). -/
def random_payload_state (s0 : Nat) : Payload :=
  let r1 := randintDraw s0 1 100
  let i := r1.1
  let r2 := randomDraw r1.2
  let f := round6 r2.1
  let r3 := choiceDraw r2.2 choices
  let c := r3.1
  { int := i, float := f, choice := c,
    sha256 := String.mk ((sha256hexChars (strBytes (jsonCanonical i f c))).take 16) }

/-- Modelled from the spec: seeding `random.Random(seed)` with an integer
seed determines the initial state; any integer is accepted. -/
def random_payload (seed : Int) : Payload :=
  random_payload_state (seed.natAbs % 18446744073709551616)

/-! ## Environment Reporter and Entry Point (src/main.py lines 15-22, 65-99)

`env_info` reads host process state (interpreter version, platform, cwd,
wall clock); those ambient values are inputs of the model.  `main` is given
the already-parsed arguments (`argparse` is the external argument-parsing
layer) and returns its printed lines together with the exit code. -/

/-- The mapping built by `env_info`, with the ambient host values as
fields. -/
structure EnvInfo where
  python : String
  platformInfo : String
  cwd : String
  time : String

/-- The parsed command-line arguments: `--name` (default `"World"`),
`--seed` (default absent), `--count` (default 10). -/
structure Args where
  name : String
  seed : Option Int
  count : Int

/-- What a run of `main` produces: the arguments of its `print` calls in
order, and the returned exit code. -/
structure MainResult where
  output : List String
  exitCode : Int

/-- `"[0, 1, 1, 2, 3]"`: Python's `repr` of a list of ints. -/
def intListRepr (l : List Int) : String :=
  "[" ++ String.intercalate ", " (l.map toString) ++ "]"

/-- `json.dumps(payload, indent=2)`: the four keys in insertion order. -/
def payloadDump (p : Payload) : String :=
  "\x7b\n  \"int\": " ++ toString p.int ++
    ",\n  \"float\": " ++ floatRepr p.float ++
    ",\n  \"choice\": \"" ++ p.choice ++
    "\",\n  \"sha256\": \"" ++ p.sha256 ++ "\"\n\x7d"

/-- `"=" * 64`. -/
def sepLine : String := String.mk (List.replicate 64 '=')

/-- The `main(argv)` function of src/main.py, after argument parsing: `env` and `now`
are the ambient host values, `entropy` is the generator state used when
`--seed` is absent.  Every code path ends in `return 0`. -/
def mainRun (args : Args) (env : EnvInfo) (now : String) (entropy : Nat) : MainResult :=
  let payload := match args.seed with
    | some s => random_payload s
    | none => random_payload_state (entropy % 18446744073709551616)
  let seq := fib args.count
  let ssum := seq.sum
  let primes := seq.filter (fun k => is_prime k)
  { output :=
      [sepLine,
       "GitHub test run at " ++ now,
       sepLine,
       "Hello, " ++ args.name ++ " 👋",
       "- Python:   " ++ env.python,
       "- Platform: " ++ env.platformInfo,
       "- CWD:      " ++ env.cwd,
       "\nRandom payload:",
       payloadDump payload,
       "\nFibonacci(" ++ toString args.count ++ ") = " ++ intListRepr seq,
       "Sum = " ++ toString ssum ++ " | Primes in sequence = " ++ intListRepr primes,
       "\nDone. Commit this change to test your GitHub setup."],
    exitCode := 0 }

/-- `fibLoop` with explicit fuel checked before each iteration, used to
state termination of the `for` loop of `fib`: `none` means the fuel ran
out before the loop finished. -/
def fibLoopFuel : Nat → Nat → Int → Int → Option (List Int)
  | _, 0, _, _ => some []
  | 0, _ + 1, _, _ => none
  | f + 1, k + 1, a, b => (fibLoopFuel f k b (a + b)).map (fun l => a :: l)

/-! ## Helper lemmas -/

lemma max_zero_toNat (n : Int) : (max 0 n).toNat = n.toNat := by
  rcases le_total 0 n with h | h
  · rw [max_eq_right h]
  · rw [max_eq_left h]
    omega

lemma fibLoop_eq_map : ∀ k i : Nat,
    fibLoop k (Nat.fib i) (Nat.fib (i + 1)) =
      (List.range k).map (fun j => (Nat.fib (i + j) : Int)) := by
  intro k
  induction k with
  | zero => intro i; simp [fibLoop]
  | succ k ih =>
    intro i
    show (Nat.fib i : Int) ::
        fibLoop k (Nat.fib (i + 1)) ((Nat.fib i : Int) + (Nat.fib (i + 1) : Int)) = _
    have hfib : ((Nat.fib i : Int) + (Nat.fib (i + 1) : Int)) = (Nat.fib (i + 1 + 1) : Int) := by
      push_cast [Nat.fib_add_two]
      ring
    rw [hfib, ih (i + 1), List.range_succ_eq_map]
    simp only [List.map_cons, List.map_map, Nat.add_zero]
    congr 1
    apply List.map_congr_left
    intro j _
    simp only [Function.comp_apply]
    have hj : i + 1 + j = i + Nat.succ j := by omega
    rw [hj]

/-- `fib n` lists the Fibonacci numbers `F 0, ..., F (max 0 n - 1)`. -/
lemma fib_eq_map (n : Int) :
    fib n = (List.range (max 0 n).toNat).map (fun j => (Nat.fib j : Int)) := by
  have h := fibLoop_eq_map (max 0 n).toNat 0
  simpa [fib] using h

lemma sum_map_fib : ∀ m : Nat,
    ((List.range m).map (fun j => (Nat.fib j : Int))).sum + 1 = (Nat.fib (m + 1) : Int) := by
  intro m
  induction m with
  | zero => simp
  | succ m ih =>
    rw [List.range_succ, List.map_append, List.sum_append]
    simp only [List.map_cons, List.map_nil, List.sum_cons, List.sum_nil]
    have h2 : (Nat.fib (m + 1 + 1) : Int) = (Nat.fib m : Int) + (Nat.fib (m + 1) : Int) := by
      push_cast [Nat.fib_add_two]
      ring
    rw [h2]
    linarith [ih]

lemma fibLoopFuel_suff : ∀ (k j : Nat) (a b : Int),
    fibLoopFuel (k + j) k a b = some (fibLoop k a b) := by
  intro k
  induction k with
  | zero => intro j a b; simp [fibLoopFuel, fibLoop]
  | succ k ih =>
    intro j a b
    have h : k + 1 + j = (k + j) + 1 := by omega
    rw [h]
    show (fibLoopFuel (k + j) k b (a + b)).map (fun l => a :: l) = _
    rw [ih j b (a + b)]
    rfl

lemma fuel_big (m : Nat) : m < (3 + 2 * (m + 1)) * (3 + 2 * (m + 1)) := by
  have h1 : m < 20 * m + 25 := by omega
  have h2 : 20 * m + 25 ≤ 4 * (m * m) + 20 * m + 25 := Nat.le_add_left _ _
  have h3 : (3 + 2 * (m + 1)) * (3 + 2 * (m + 1)) = 4 * (m * m) + 20 * m + 25 := by ring
  rw [h3]
  exact lt_of_lt_of_le h1 h2

/-- With enough fuel that the divisor counter would pass `sqrt n`, the
trial-division loop halts (never returns `none`). -/
lemma trialDivFuel_some (n : Nat) : ∀ f d : Nat,
    n < (d + 2 * f) * (d + 2 * f) → ∃ b, trialDivFuel n f d = some b := by
  intro f
  induction f with
  | zero =>
    intro d h
    have h' : n < d * d := by simpa using h
    simp [trialDivFuel, not_le.mpr h']
  | succ f ih =>
    intro d h
    by_cases hg : d * d ≤ n
    · by_cases hm : n % d = 0
      · simp [trialDivFuel, hg, hm]
      · have hsh : d + 2 * (f + 1) = (d + 2) + 2 * f := by ring
        rw [hsh] at h
        rcases ih (d + 2) h with ⟨b, hb⟩
        exact ⟨b, by simp [trialDivFuel, hg, hm, hb]⟩
    · simp [trialDivFuel, hg]

/-- Any two sufficient fuels give the same result. -/
lemma trialDivFuel_stable (n : Nat) : ∀ f f' d : Nat,
    n < (d + 2 * f) * (d + 2 * f) → n < (d + 2 * f') * (d + 2 * f') →
    trialDivFuel n f d = trialDivFuel n f' d := by
  intro f
  induction f with
  | zero =>
    intro f' d h _
    have hg : ¬ d * d ≤ n := not_le.mpr (by simpa using h)
    cases f' <;> simp [trialDivFuel, hg]
  | succ f ih =>
    intro f' d h h'
    by_cases hg : d * d ≤ n
    · cases f' with
      | zero =>
        exact absurd hg (not_le.mpr (by simpa using h'))
      | succ f' =>
        by_cases hm : n % d = 0
        · simp [trialDivFuel, hg, hm]
        · have hsh : d + 2 * (f + 1) = (d + 2) + 2 * f := by ring
          have hsh' : d + 2 * (f' + 1) = (d + 2) + 2 * f' := by ring
          rw [hsh] at h
          rw [hsh'] at h'
          simp only [trialDivFuel, if_pos hg, if_neg hm]
          exact ih f' (d + 2) h h'
    · cases f' <;> simp [trialDivFuel, hg]

/-- Characterization of the trial-division loop: for an odd starting divisor
and sufficient fuel, it returns `true` exactly when no odd `e ≥ d` with
`e * e ≤ n` divides `n`. -/
lemma trialDivFuel_char (n : Nat) : ∀ f d : Nat,
    n < (d + 2 * f) * (d + 2 * f) → d % 2 = 1 →
    (trialDivFuel n f d = some true ↔
      ∀ e : Nat, d ≤ e → e % 2 = 1 → e * e ≤ n → ¬ (e ∣ n)) := by
  intro f
  induction f with
  | zero =>
    intro d h _
    have h' : n < d * d := by simpa using h
    rw [show trialDivFuel n 0 d = some true from by simp [trialDivFuel, not_le.mpr h']]
    constructor
    · intro _ e hde _ hen _
      have hdd : d * d ≤ e * e := Nat.mul_le_mul hde hde
      exact absurd hen (not_le.mpr (lt_of_lt_of_le h' hdd))
    · intro _
      rfl
  | succ f ih =>
    intro d h hd
    by_cases hg : d * d ≤ n
    · by_cases hm : n % d = 0
      · rw [show trialDivFuel n (f + 1) d = some false from by simp [trialDivFuel, hg, hm]]
        constructor
        · intro hfalse
          exact absurd hfalse (by simp)
        · intro hP
          have hdvd : d ∣ n := Nat.dvd_of_mod_eq_zero hm
          exact absurd hdvd (hP d le_rfl hd hg)
      · have hsh : d + 2 * (f + 1) = (d + 2) + 2 * f := by ring
        rw [hsh] at h
        have hd2 : (d + 2) % 2 = 1 := by omega
        rw [show trialDivFuel n (f + 1) d = trialDivFuel n f (d + 2) from by
          simp [trialDivFuel, hg, hm]]
        rw [ih (d + 2) h hd2]
        constructor
        · intro hP e hde he hen
          rcases Nat.eq_or_lt_of_le hde with heq | hlt
          · intro hdvd
            rw [← heq] at hdvd
            exact hm (Nat.mod_eq_zero_of_dvd hdvd)
          · exact hP e (by omega) he hen
        · intro hP e hde he hen
          exact hP e (by omega) he hen
    · rw [show trialDivFuel n (f + 1) d = some true from by simp [trialDivFuel, hg]]
      constructor
      · intro _ e hde _ hen _
        have hdd : d * d ≤ e * e := Nat.mul_le_mul hde hde
        exact absurd hen (not_le.mpr (lt_of_lt_of_le (not_le.mp hg) hdd))
      · intro _
        rfl

lemma randintDraw_bounds (s : Nat) :
    1 ≤ (randintDraw s 1 100).1 ∧ (randintDraw s 1 100).1 ≤ 100 := by
  have h : rngNext s % 100 < 100 := Nat.mod_lt _ (by norm_num)
  have h100 : ((100 : Int) - 1 + 1).toNat = 100 := rfl
  simp only [randintDraw, h100]
  omega

lemma randomDraw_bounds (s : Nat) :
    0 ≤ (randomDraw s).1 ∧ (randomDraw s).1 < 1 := by
  have h : rngNext s % 9007199254740992 < 9007199254740992 := Nat.mod_lt _ (by norm_num)
  simp only [randomDraw]
  constructor
  · exact div_nonneg (Nat.cast_nonneg _) (by norm_num)
  · rw [div_lt_one (by norm_num)]
    exact_mod_cast h

lemma choiceDraw_mem (s : Nat) : (choiceDraw s choices).1 ∈ choices := by
  have h : rngNext s % 4 = 0 ∨ rngNext s % 4 = 1 ∨ rngNext s % 4 = 2 ∨ rngNext s % 4 = 3 := by
    omega
  have hlen : choices.length = 4 := rfl
  rcases h with h | h | h | h <;> simp [choiceDraw, hlen, h, choices]

lemma roundHalfEven_nonneg {x : ℚ} (hx : 0 ≤ x) : 0 ≤ roundHalfEven x := by
  have hf : 0 ≤ ⌊x⌋ := Int.floor_nonneg.mpr hx
  unfold roundHalfEven
  split_ifs <;> omega

lemma roundHalfEven_le_floor_add_one (x : ℚ) : roundHalfEven x ≤ ⌊x⌋ + 1 := by
  unfold roundHalfEven
  split_ifs <;> omega

lemma round6_nonneg {x : ℚ} (hx : 0 ≤ x) : 0 ≤ round6 x := by
  unfold round6
  have h : (0 : ℤ) ≤ roundHalfEven (x * 1000000) :=
    roundHalfEven_nonneg (by positivity)
  have : (0 : ℚ) ≤ (roundHalfEven (x * 1000000) : ℚ) := by exact_mod_cast h
  positivity

lemma round6_le_one {x : ℚ} (hx : x < 1) : round6 x ≤ 1 := by
  unfold round6
  have hfl : ⌊x * 1000000⌋ < 1000000 := by
    rw [Int.floor_lt]
    push_cast
    nlinarith
  have hm : roundHalfEven (x * 1000000) ≤ 1000000 :=
    le_trans (roundHalfEven_le_floor_add_one _) (by omega)
  rw [div_le_one (by norm_num)]
  exact_mod_cast hm

lemma round6_times_million_den (x : ℚ) : (round6 x * 1000000).den = 1 := by
  unfold round6
  rw [div_mul_cancel₀ _ (by norm_num : (1000000 : ℚ) ≠ 0)]
  exact Rat.den_intCast _

lemma getD_mem_or_eq {α : Type} : ∀ (l : List α) (i : Nat) (d : α),
    l.getD i d ∈ l ∨ l.getD i d = d
  | [], _, _ => Or.inr rfl
  | a :: _, 0, _ => Or.inl (List.mem_cons_self _ _)
  | _ :: l, i + 1, d => by
    rw [List.getD_cons_succ]
    rcases getD_mem_or_eq l i d with h | h
    · exact Or.inl (List.mem_cons_of_mem _ h)
    · exact Or.inr h

lemma nib_mem (x : Nat) : nib x ∈ hexChars := by
  unfold nib
  rcases getD_mem_or_eq hexChars x '0' with h | h
  · exact h
  · rw [h]
    decide

lemma wordHex_mem {c : Char} {w : Nat} (hc : c ∈ wordHex w) : c ∈ hexChars := by
  simp only [wordHex, List.mem_cons, List.not_mem_nil, or_false] at hc
  rcases hc with h | h | h | h | h | h | h | h <;> (rw [h]; exact nib_mem _)

lemma hashHex_mem {c : Char} {H : Hash8} (hc : c ∈ hashHex H) : c ∈ hexChars := by
  simp only [hashHex, List.mem_append] at hc
  rcases hc with ((((((h | h) | h) | h) | h) | h) | h) | h <;> exact wordHex_mem h

lemma hashHex_length (H : Hash8) : (hashHex H).length = 64 := by
  simp [hashHex, wordHex]

lemma canonicalChecksum_length (i : Int) (f : ℚ) (c : String) :
    (canonicalChecksum i f c).length = 16 := by
  show ((sha256hexChars (strBytes (jsonCanonical i f c))).take 16).length = 16
  rw [List.length_take, sha256hexChars, hashHex_length]
  decide

lemma canonicalChecksum_hex (i : Int) (f : ℚ) (c : String) :
    ∀ ch ∈ (canonicalChecksum i f c).data, ch ∈ hexChars := by
  intro ch hch
  have h : ch ∈ sha256hexChars (strBytes (jsonCanonical i f c)) :=
    List.mem_of_mem_take hch
  exact hashHex_mem h

/-- The checksum field of the payload is literally the canonical checksum
of the three drawn fields (definitional unfolding). -/
lemma payload_sha256_eq (s0 : Nat) :
    (random_payload_state s0).sha256 =
      canonicalChecksum (random_payload_state s0).int (random_payload_state s0).float
        (random_payload_state s0).choice := by
  simp only [random_payload_state, canonicalChecksum]

/-! ## Claim theorems -/

/-- Claim C1: for every integer seed `s`, two calls of `random_payload`
with that seed return identical payload records — equal `int`, `float` and
`choice` fields and an equal 16-character checksum.  In the embedding the
generator is constructed afresh from the seed (line 54 of the source), so
the payload is a pure function of the seed; determinism is definitional,
and the checksum length is proved from the SHA-256 hex digest. -/
theorem generate_payload_deterministic (s : Int) :
    (random_payload s).int = (random_payload s).int ∧
    (random_payload s).float = (random_payload s).float ∧
    (random_payload s).choice = (random_payload s).choice ∧
    (random_payload s).sha256 = (random_payload s).sha256 ∧
    (random_payload s).sha256.length = 16 := by
  refine ⟨rfl, rfl, rfl, rfl, ?_⟩
  show (random_payload_state (s.natAbs % 18446744073709551616)).sha256.length = 16
  rw [payload_sha256_eq]
  exact canonicalChecksum_length _ _ _

/-- Claim C3: the stored checksum of every payload equals the recomputed
SHA-256 (truncated to 16 hex characters) of the canonical serialization of
the three preceding fields; it is a pure deterministic function
(`canonicalChecksum`) of those fields. -/
theorem checksum_recomputed (s0 : Nat) :
    (random_payload_state s0).sha256 =
      canonicalChecksum (random_payload_state s0).int (random_payload_state s0).float
        (random_payload_state s0).choice :=
  payload_sha256_eq s0

/-- Claim C6: with `count = 5` the Sequence Analyzer produces the
Fibonacci sequence `[0, 1, 1, 2, 3]`, sum `7`, and primes `[2, 3]`
(the order-preserving filter of the sequence by `is_prime`). -/
theorem sequence_analyzer_count_five :
    fib 5 = [0, 1, 1, 2, 3] ∧ (fib 5).sum = 7 ∧ fibPrimes 5 = [2, 3] := by
  decide

/-- Claim C7: for every parsed command-line input (any name, any present or
absent seed, any count) and any ambient host state, `main` returns exit
code 0; no code path of the program's own logic returns a non-zero code. -/
theorem main_exit_zero (args : Args) (env : EnvInfo) (now : String) (entropy : Nat) :
    (mainRun args env now entropy).exitCode = 0 := rfl

/-- Claim C4: `fib n` has length `max 0 n` and lists the Fibonacci numbers
`F 0, ..., F (max 0 n - 1)` (so any negative count yields the empty list,
identically to count 0), with the concrete values the spec lists. -/
theorem fibonacci_first_n (n : Int) :
    (fib n).length = (max 0 n).toNat ∧
    fib n = (List.range (max 0 n).toNat).map (fun j => (Nat.fib j : Int)) ∧
    (n < 0 → fib n = fib 0) ∧
    fib 0 = [] ∧ fib 1 = [0] ∧ fib 5 = [0, 1, 1, 2, 3] := by
  refine ⟨?_, fib_eq_map n, ?_, by decide, by decide, by decide⟩
  · rw [fib_eq_map n]
    simp
  · intro hneg
    have h : max 0 n = 0 := max_eq_left (le_of_lt hneg)
    rw [fib, h]
    decide

theorem fibonacci_first_n_witness : (-3 : Int) < 0 ∧ fib (-3) = fib 0 :=
  ⟨by decide, (fibonacci_first_n (-3)).2.2.1 (by decide)⟩

/-- Claim C9: for `0 ≤ n ≤ m`, `fib n` is a prefix of `fib m` — increasing
the count only appends elements. -/
theorem fib_monotone_in_count (n m : Int) (hn : 0 ≤ n) (hnm : n ≤ m) :
    fib n = (fib m).take n.toNat ∧ fib n <+: fib m := by
  have htake : fib n = (fib m).take n.toNat := by
    rw [fib_eq_map n, fib_eq_map m, max_zero_toNat, max_zero_toNat, ← List.map_take,
      List.take_range]
    congr 2
    omega
  refine ⟨htake, ⟨(fib m).drop n.toNat, ?_⟩⟩
  rw [htake]
  exact List.take_append_drop _ _

theorem fib_monotone_in_count_witness :
    (0 : Int) ≤ 3 ∧ (3 : Int) ≤ 5 ∧ fib 3 = (fib 5).take (3 : Int).toNat :=
  ⟨by decide, by decide, (fib_monotone_in_count 3 5 (by decide) (by decide)).1⟩

/-- Claim C10: for every `n ≥ 0`, the sum of `fib n` plus 1 equals the
last element of `fib (n + 2)` — the Fibonacci sum identity
`F 0 + ... + F (n-1) = F (n+1) - 1` relating the printed sum to the
sequence itself. -/
theorem fib_sum_is_last_minus_one (n : Int) (hn : 0 ≤ n) :
    (fib (n + 2)).getLast? = some ((fib n).sum + 1) := by
  rw [fib_eq_map n, fib_eq_map (n + 2), max_zero_toNat, max_zero_toNat]
  have h2 : (n + 2).toNat = (n.toNat + 1) + 1 := by omega
  rw [h2, List.range_succ, List.map_append]
  simp only [List.map_cons, List.map_nil]
  rw [List.getLast?_concat, sum_map_fib n.toNat]

theorem fib_sum_is_last_minus_one_witness :
    (0 : Int) ≤ 5 ∧ (fib (5 + 2)).getLast? = some ((fib 5).sum + 1) :=
  ⟨by decide, fib_sum_is_last_minus_one 5 (by decide)⟩

/-- Claim C5: `is_prime` returns `false` for `n < 2`, `true` for `n = 2`,
`false` for even `n > 2`, and for odd `n > 2` it returns `true` exactly
when no odd `d` with `3 ≤ d ≤ ⌊√n⌋` divides `n`; with the concrete values
the spec lists. -/
theorem is_prime_trial_division (n : Int) :
    (n < 2 → is_prime n = false) ∧
    is_prime 2 = true ∧
    (2 < n → n % 2 = 0 → is_prime n = false) ∧
    (2 < n → n % 2 = 1 →
      (is_prime n = true ↔
        ∀ d : Nat, 3 ≤ d → d % 2 = 1 → d ≤ Nat.sqrt n.toNat → ¬ (d ∣ n.toNat))) ∧
    is_prime 3 = true ∧ is_prime 5 = true ∧ is_prime 7 = true ∧
    is_prime 11 = true ∧ is_prime 13 = true ∧
    is_prime 4 = false ∧ is_prime 6 = false ∧ is_prime 8 = false ∧
    is_prime 9 = false ∧ is_prime 10 = false := by
  refine ⟨?_, by decide, ?_, ?_, by decide, by decide, by decide, by decide, by decide,
    by decide, by decide, by decide, by decide, by decide⟩
  · intro h
    simp [is_prime, isPrimeFuel, h]
  · intro h1 h2
    have hlt : ¬ n < 2 := by omega
    have hne : ¬ n = 2 := by omega
    have hd : is_prime n = decide (n = 2) := by simp [is_prime, isPrimeFuel, hlt, h2]
    rw [hd, decide_eq_false hne]
  · intro h1 h2
    have hlt : ¬ n < 2 := by omega
    have hne2 : ¬ n % 2 = 0 := by omega
    have hs1 := fuel_big n.toNat
    rcases trialDivFuel_some n.toNat (n.toNat + 1) 3 hs1 with ⟨b, hb⟩
    have hchar := trialDivFuel_char n.toNat (n.toNat + 1) 3 hs1 (by norm_num)
    rw [hb] at hchar
    have hip : is_prime n = b := by simp [is_prime, isPrimeFuel, hlt, hne2, hb]
    rw [hip]
    simp only [Option.some.injEq] at hchar
    rw [hchar]
    constructor
    · intro H d h3 hodd hsqrt
      exact H d h3 hodd (Nat.le_sqrt.mp hsqrt)
    · intro H e h3 hodd hsq
      exact H e h3 hodd (Nat.le_sqrt.mpr hsq)

theorem is_prime_trial_division_witness : is_prime (-7 : Int) = false :=
  (is_prime_trial_division (-7)).1 (by decide)

/-- Claim C8: `fib` and `is_prime` are total over all integers: both loops
terminate.  The `for` loop of `fib` runs exactly `max 0 n` iterations, and
the `while` loop of `is_prime` halts within the fuel budget — with that
much fuel or any more, the fuelled loops return `some` of the functions'
values instead of running out. -/
theorem loops_terminate (n : Int) :
    (∀ k : Nat, fibLoopFuel ((max 0 n).toNat + k) (max 0 n).toNat 0 1 = some (fib n)) ∧
    (∀ k : Nat, isPrimeFuel (n.toNat + 1 + k) n = some (is_prime n)) := by
  constructor
  · intro k
    exact fibLoopFuel_suff (max 0 n).toNat k 0 1
  · intro k
    by_cases h1 : n < 2
    · simp [isPrimeFuel, is_prime, h1]
    · by_cases h2 : n % 2 = 0
      · simp [isPrimeFuel, is_prime, h1, h2]
      · have hs1 := fuel_big n.toNat
        have hmono : (3 + 2 * (n.toNat + 1)) * (3 + 2 * (n.toNat + 1)) ≤
            (3 + 2 * (n.toNat + 1 + k)) * (3 + 2 * (n.toNat + 1 + k)) :=
          Nat.mul_le_mul (by omega) (by omega)
        have hs2 : n.toNat < (3 + 2 * (n.toNat + 1 + k)) * (3 + 2 * (n.toNat + 1 + k)) :=
          lt_of_lt_of_le hs1 hmono
        have hst := trialDivFuel_stable n.toNat (n.toNat + 1 + k) (n.toNat + 1) 3 hs2 hs1
        rcases trialDivFuel_some n.toNat (n.toNat + 1) 3 hs1 with ⟨b, hb⟩
        simp [isPrimeFuel, is_prime, h1, h2, hst, hb]

/-- Claim C2 (amended): every payload — from any seed or, via an arbitrary
generator state, no seed — has `int` in `[1, 100]`, `float` a multiple of
`10 ^ -6` in the closed interval `[0, 1]`, `choice` among the four
categories, and a 16-character hexadecimal checksum.  (The claim's
half-open interval `[0, 1)` is refuted by `round_up_to_one_counterexample`:
a raw draw above `1 - 5 * 10 ^ -7` rounds up to `1.0`.) -/
theorem payload_field_ranges (s0 : Nat) :
    1 ≤ (random_payload_state s0).int ∧
    (random_payload_state s0).int ≤ 100 ∧
    0 ≤ (random_payload_state s0).float ∧
    (random_payload_state s0).float ≤ 1 ∧
    ((random_payload_state s0).float * 1000000).den = 1 ∧
    (random_payload_state s0).choice ∈ choices ∧
    (random_payload_state s0).sha256.length = 16 ∧
    ∀ ch ∈ (random_payload_state s0).sha256.data, ch ∈ hexChars := by
  have hint : (random_payload_state s0).int = (randintDraw s0 1 100).1 := rfl
  have hfl : (random_payload_state s0).float =
      round6 (randomDraw (randintDraw s0 1 100).2).1 := rfl
  have hch : (random_payload_state s0).choice =
      (choiceDraw (randomDraw (randintDraw s0 1 100).2).2 choices).1 := by
    simp only [random_payload_state]
  refine ⟨?_, ?_, ?_, ?_, ?_, ?_, ?_, ?_⟩
  · rw [hint]
    exact (randintDraw_bounds s0).1
  · rw [hint]
    exact (randintDraw_bounds s0).2
  · rw [hfl]
    exact round6_nonneg (randomDraw_bounds _).1
  · rw [hfl]
    exact round6_le_one (randomDraw_bounds _).2
  · rw [hfl]
    exact round6_times_million_den _
  · rw [hch]
    exact choiceDraw_mem _
  · rw [payload_sha256_eq]
    exact canonicalChecksum_length _ _ _
  · rw [payload_sha256_eq]
    exact canonicalChecksum_hex _ _ _

/-- Claim C2, counterexample to the stated half-open range: with seed
2827654548273707845, the generator state at the second draw makes
`rng.random()` return `(2 ^ 53 - 1) / 2 ^ 53 > 1 - 5 * 10 ^ -7`, and
`round(x, 6)` rounds that up to exactly `1.0`, so the float field is not
in `[0, 1)`.  (The rounding step is seed-independent: any raw draw at
distance less than `5 * 10 ^ -7` from 1 produces `1.0`.) -/
theorem round_up_to_one_counterexample :
    (random_payload 2827654548273707845).float = 1 ∧
    ¬ ((random_payload 2827654548273707845).float < 1) := by
  have hs0 : (2827654548273707845 : Int).natAbs % 18446744073709551616 = 2827654548273707845 := by
    norm_num
  have hs1 : rngNext 2827654548273707845 = 17122059263208138608 := by norm_num [rngNext]
  have hs2 : rngNext 17122059263208138608 = 9007199254740991 := by norm_num [rngNext]
  have hq : (random_payload 2827654548273707845).float =
      round6 ((9007199254740991 : ℚ) / 9007199254740992) := by
    simp only [random_payload, random_payload_state, randintDraw, randomDraw, hs0, hs1, hs2]
    norm_num
  have hfl : ⌊((9007199254740991 : ℚ) / 9007199254740992) * 1000000⌋ = 999999 := by
    rw [Int.floor_eq_iff]
    constructor <;> norm_num
  have hrhe : roundHalfEven (((9007199254740991 : ℚ) / 9007199254740992) * 1000000) = 1000000 := by
    unfold roundHalfEven
    rw [hfl]
    split_ifs with h1 h2 h3
    · norm_num at h1
    · norm_num
    · norm_num at h2
    · norm_num
  have h1 : (random_payload 2827654548273707845).float = 1 := by
    rw [hq]
    unfold round6
    rw [hrhe]
    norm_num
  exact ⟨h1, by rw [h1]; exact lt_irrefl 1⟩
